import Mathlib

/-
  Verification of the Candlestick-CLI rendering core.

  Shallow embedding conventions:
  * JavaScript numbers are modelled as `ℚ` (all arithmetic in the verified
    routines is exact on the inputs considered; `Math.floor`/`Math.ceil`
    become `Int.floor`/`Int.ceil`).
  * `x || 1` on a number (used as a division guard) is `jsOr1`.
  * Optional values (`volume?: number`) become `Option ℚ`.
  * Methods that mutate `this` become functions `State → State`; a method
    that may `throw` returns the untouched state paired with
    `Option String` (the error message), mirroring the fact that in the
    source the `throw` happens before any field assignment.
  * Array-identity operations (`includes`, `indexOf`) in the sampling code
    are modelled on candle *indices*: in the source every element of the
    candle array is a distinct object, so reference equality coincides
    with index equality.
-/

/-- Candle direction, from src/types/candlestick.ts (`Bearish = 0`, `Bullish = 1`). -/
inductive CandleType where
  | Bearish : CandleType
  | Bullish : CandleType
deriving DecidableEq

/-- One OHLCV candle, from src/types/candlestick.ts.  `open` is a Lean
keyword, so the field is spelled `open_`. -/
structure Candle where
  open_ : ℚ
  high : ℚ
  low : ℚ
  close : ℚ
  volume : Option ℚ
  timestamp : ℚ
  type : CandleType
deriving DecidableEq

/-- The eight aggregate statistics of `CandleSet`, field order as in
src/chart/candle-set.ts. -/
structure CandleSetStats where
  minPrice : ℚ
  maxPrice : ℚ
  minVolume : ℚ
  maxVolume : ℚ
  variation : ℚ
  average : ℚ
  lastPrice : ℚ
  cumulativeVolume : ℚ
deriving DecidableEq

/-- Model of `Math.min(...l)` for the nonempty lists it is applied to
(the `[]` case is unreachable in `computeAll`, which guards
`candles.length === 0` first). -/
def jsMin : List ℚ → ℚ
  | [] => 0
  | x :: xs => xs.foldl min x

/-- Model of `Math.max(...l)` for the nonempty lists it is applied to. -/
def jsMax : List ℚ → ℚ
  | [] => 0
  | x :: xs => xs.foldl max x

/-- The JavaScript `x || 1` guard on a number: `0` is falsy and is replaced
by `1`. -/
def jsOr1 (x : ℚ) : ℚ := if x = 0 then 1 else x

/-- Model of `CandleSet.computeAll` / `resetStats` from src/chart/candle-set.ts as a
pure function of the candle list.  `variation` divides by the first open
price; on `ℚ` division by zero yields `0` where JS would yield `±Infinity`
(the spec flags this case as unguarded; no claim depends on it). -/
def computeStats : List Candle → CandleSetStats
  | [] => ⟨0, 0, 0, 0, 0, 0, 0, 0⟩
  | c :: cs =>
    let candles := c :: cs
    let prices := candles.flatMap fun x => [x.high, x.low]
    let volumes := candles.filterMap Candle.volume
    let minVolume := if 0 < volumes.length then jsMin volumes else 0
    let maxVolume := if 0 < volumes.length then jsMax volumes else 0
    let cumulativeVolume := if 0 < volumes.length then volumes.foldl (· + ·) 0 else 0
    let firstPrice := c.open_
    let lastPrice := (candles.getLast (List.cons_ne_nil c cs)).close
    { minPrice := jsMin prices
      maxPrice := jsMax prices
      minVolume := minVolume
      maxVolume := maxVolume
      variation := ((lastPrice - firstPrice) / firstPrice) * 100
      average := (prices.foldl (· + ·) 0) / (prices.length : ℚ)
      lastPrice := lastPrice
      cumulativeVolume := cumulativeVolume }

/-- Model of `CandleSet`: candle list plus its (always freshly recomputed)
statistics. -/
structure CandleSet where
  candles : List Candle
  stats : CandleSetStats
deriving DecidableEq

/-- The `CandleSet` constructor (stores the candles and runs
`computeAll`). -/
def mkCandleSet (cs : List Candle) : CandleSet :=
  ⟨cs, computeStats cs⟩

/-- Model of `CandleSet.addCandles`: append then recompute. -/
def CandleSet.addCandles (s : CandleSet) (newCandles : List Candle) : CandleSet :=
  mkCandleSet (s.candles ++ newCandles)

/-- Model of `CandleSet.setCandles`: replace then recompute. -/
def CandleSet.setCandles (_s : CandleSet) (newCandles : List Candle) : CandleSet :=
  mkCandleSet newCandles

-- Helper lemmas about `foldl max` / `foldl min`.

lemma foldl_max_init_le (a : ℚ) (l : List ℚ) : a ≤ l.foldl max a := by
  induction l generalizing a with
  | nil => exact le_refl a
  | cons x xs ih => exact le_trans (le_max_left a x) (ih (max a x))

lemma le_foldl_max_of_mem {x : ℚ} {l : List ℚ} (hx : x ∈ l) (a : ℚ) :
    x ≤ l.foldl max a := by
  induction l generalizing a with
  | nil => cases hx
  | cons y ys ih =>
    rcases List.mem_cons.mp hx with h | h
    · subst h
      exact le_trans (le_max_right a x) (foldl_max_init_le (max a x) ys)
    · exact ih h (max a y)

lemma foldl_max_mem (a : ℚ) (l : List ℚ) : l.foldl max a = a ∨ l.foldl max a ∈ l := by
  induction l generalizing a with
  | nil => exact Or.inl rfl
  | cons x xs ih =>
    rcases ih (max a x) with h | h
    · rcases max_choice a x with hm | hm
      · exact Or.inl (by rw [List.foldl_cons, h, hm])
      · exact Or.inr (by rw [List.foldl_cons, h, hm]; exact List.mem_cons_self x xs)
    · exact Or.inr (List.mem_cons_of_mem x h)

lemma foldl_min_le_init (a : ℚ) (l : List ℚ) : l.foldl min a ≤ a := by
  induction l generalizing a with
  | nil => exact le_refl a
  | cons x xs ih => exact le_trans (ih (min a x)) (min_le_left a x)

lemma foldl_min_le_of_mem {x : ℚ} {l : List ℚ} (hx : x ∈ l) (a : ℚ) :
    l.foldl min a ≤ x := by
  induction l generalizing a with
  | nil => cases hx
  | cons y ys ih =>
    rcases List.mem_cons.mp hx with h | h
    · subst h
      exact le_trans (foldl_min_le_init (min a x) ys) (min_le_right a x)
    · exact ih h (min a y)

lemma foldl_min_mem (a : ℚ) (l : List ℚ) : l.foldl min a = a ∨ l.foldl min a ∈ l := by
  induction l generalizing a with
  | nil => exact Or.inl rfl
  | cons x xs ih =>
    rcases ih (min a x) with h | h
    · rcases min_choice a x with hm | hm
      · exact Or.inl (by rw [List.foldl_cons, h, hm])
      · exact Or.inr (by rw [List.foldl_cons, h, hm]; exact List.mem_cons_self x xs)
    · exact Or.inr (List.mem_cons_of_mem x h)

lemma le_jsMax_of_mem {x : ℚ} {l : List ℚ} (hx : x ∈ l) : x ≤ jsMax l := by
  cases l with
  | nil => cases hx
  | cons y ys =>
    rcases List.mem_cons.mp hx with h | h
    · subst h; exact foldl_max_init_le x ys
    · exact le_foldl_max_of_mem h y

lemma jsMax_mem {l : List ℚ} (h : l ≠ []) : jsMax l ∈ l := by
  cases l with
  | nil => exact absurd rfl h
  | cons y ys =>
    rcases foldl_max_mem y ys with h | h
    · exact List.mem_cons.mpr (Or.inl h)
    · exact List.mem_cons_of_mem y h

lemma jsMin_le_of_mem {x : ℚ} {l : List ℚ} (hx : x ∈ l) : jsMin l ≤ x := by
  cases l with
  | nil => cases hx
  | cons y ys =>
    rcases List.mem_cons.mp hx with h | h
    · subst h; exact foldl_min_le_init x ys
    · exact foldl_min_le_of_mem h y

lemma jsMin_mem {l : List ℚ} (h : l ≠ []) : jsMin l ∈ l := by
  cases l with
  | nil => exact absurd rfl h
  | cons y ys =>
    rcases foldl_min_mem y ys with h | h
    · exact List.mem_cons.mpr (Or.inl h)
    · exact List.mem_cons_of_mem y h

lemma foldl_add_eq (a : ℚ) (l : List ℚ) : l.foldl (· + ·) a = a + l.sum := by
  induction l generalizing a with
  | nil => simp
  | cons x xs ih => simp [ih, add_assoc]

lemma mem_pricesList {cs : List Candle} {p : ℚ}
    (hp : p ∈ cs.flatMap fun x => [x.high, x.low]) :
    ∃ c ∈ cs, p = c.high ∨ p = c.low := by
  rcases List.mem_flatMap.mp hp with ⟨c, hc, hmem⟩
  refine ⟨c, hc, ?_⟩
  rcases List.mem_cons.mp hmem with h | h
  · exact Or.inl h
  · rcases List.mem_cons.mp h with h | h
    · exact Or.inr h
    · cases h

lemma high_mem_pricesList {cs : List Candle} {c : Candle} (hc : c ∈ cs) :
    c.high ∈ cs.flatMap fun x => [x.high, x.low] :=
  List.mem_flatMap.mpr ⟨c, hc, List.mem_cons_self _ _⟩

lemma low_mem_pricesList {cs : List Candle} {c : Candle} (hc : c ∈ cs) :
    c.low ∈ cs.flatMap fun x => [x.high, x.low] :=
  List.mem_flatMap.mpr ⟨c, hc, List.mem_cons_of_mem _ (List.mem_cons_self _ _)⟩

/-- C1: For pre-validated candles (`low ≤ high` each), the recomputed
statistics satisfy: `maxPrice` is the maximum of the highs (an upper bound
that is attained), `minPrice` is the minimum of the lows, and
`cumulativeVolume` is the sum of the defined volumes; the empty list yields
all eight statistics equal to `0`.  The constructor, `setCandles` and
`addCandles` all store exactly these recomputed statistics. -/
theorem candleSet_stats_correct (cs : List Candle)
    (h : ∀ c ∈ cs, c.low ≤ c.high) :
    (cs ≠ [] →
      ((∀ c ∈ cs, c.high ≤ (computeStats cs).maxPrice) ∧
        ∃ c ∈ cs, (computeStats cs).maxPrice = c.high) ∧
      ((∀ c ∈ cs, (computeStats cs).minPrice ≤ c.low) ∧
        ∃ c ∈ cs, (computeStats cs).minPrice = c.low)) ∧
    (computeStats cs).cumulativeVolume = (cs.filterMap Candle.volume).sum ∧
    computeStats [] = ⟨0, 0, 0, 0, 0, 0, 0, 0⟩ ∧
    (mkCandleSet cs).stats = computeStats cs ∧
    (∀ (s : CandleSet) (more : List Candle),
      (s.addCandles more).stats = computeStats (s.candles ++ more) ∧
      (s.setCandles more).stats = computeStats more) := by
  refine ⟨?_, ?_, rfl, rfl, fun s more => ⟨rfl, rfl⟩⟩
  · intro hne
    match cs, hne with
    | c :: cs', _ =>
      have hmax : (computeStats (c :: cs')).maxPrice =
          jsMax ((c :: cs').flatMap fun x => [x.high, x.low]) := rfl
      have hmin : (computeStats (c :: cs')).minPrice =
          jsMin ((c :: cs').flatMap fun x => [x.high, x.low]) := rfl
      have hpne : ((c :: cs').flatMap fun x => [x.high, x.low]) ≠ [] := by
        intro habs
        have : c.high ∈ ((c :: cs').flatMap fun x => [x.high, x.low]) :=
          high_mem_pricesList (List.mem_cons_self c cs')
        rw [habs] at this
        cases this
      constructor
      · constructor
        · intro d hd
          rw [hmax]
          exact le_jsMax_of_mem (high_mem_pricesList hd)
        · rcases mem_pricesList (jsMax_mem hpne) with ⟨d, hd, hcase⟩
          refine ⟨d, hd, ?_⟩
          rcases hcase with hcase | hcase
          · rw [hmax]; exact hcase
          · -- the max of the pooled prices is some candle's low:
            -- then that candle's high is squeezed to equal it
            rw [hmax]
            have h1 : d.high ≤ jsMax ((c :: cs').flatMap fun x => [x.high, x.low]) :=
              le_jsMax_of_mem (high_mem_pricesList hd)
            have h2 : jsMax ((c :: cs').flatMap fun x => [x.high, x.low]) ≤ d.high :=
              hcase ▸ h d hd
            exact le_antisymm h2 h1
      · constructor
        · intro d hd
          rw [hmin]
          exact jsMin_le_of_mem (low_mem_pricesList hd)
        · rcases mem_pricesList (jsMin_mem hpne) with ⟨d, hd, hcase⟩
          refine ⟨d, hd, ?_⟩
          rcases hcase with hcase | hcase
          · -- the min of the pooled prices is some candle's high:
            -- then that candle's low is squeezed to equal it
            rw [hmin]
            have h1 : jsMin ((c :: cs').flatMap fun x => [x.high, x.low]) ≤ d.low :=
              jsMin_le_of_mem (low_mem_pricesList hd)
            have h2 : d.low ≤ jsMin ((c :: cs').flatMap fun x => [x.high, x.low]) :=
              hcase ▸ h d hd
            exact le_antisymm h1 h2
          · rw [hmin]; exact hcase
  · match cs with
    | [] => rfl
    | c :: cs' =>
      show (if 0 < ((c :: cs').filterMap Candle.volume).length then
          ((c :: cs').filterMap Candle.volume).foldl (· + ·) 0 else 0) =
          ((c :: cs').filterMap Candle.volume).sum
      by_cases hv : 0 < ((c :: cs').filterMap Candle.volume).length
      · rw [if_pos hv, foldl_add_eq, zero_add]
      · rw [if_neg hv]
        have : (c :: cs').filterMap Candle.volume = [] :=
          List.length_eq_zero.mp (Nat.eq_zero_of_not_pos hv)
        rw [this]
        rfl

/-- A sample candle for concrete evaluations. -/
def kc (o h l c : ℚ) (v : Option ℚ) : Candle :=
  ⟨o, h, l, c, v, 0, CandleType.Bullish⟩

/-- Witness for C1 at a concrete two-candle list. -/
theorem candleSet_stats_correct_witness :
    (∀ c ∈ [kc 100 105 99 103 (some 1000), kc 103 108 102 106 none], c.low ≤ c.high) ∧
    (([kc 100 105 99 103 (some 1000), kc 103 108 102 106 none] : List Candle) ≠ [] →
      ((∀ c ∈ [kc 100 105 99 103 (some 1000), kc 103 108 102 106 none],
          c.high ≤ (computeStats [kc 100 105 99 103 (some 1000), kc 103 108 102 106 none]).maxPrice) ∧
        ∃ c ∈ [kc 100 105 99 103 (some 1000), kc 103 108 102 106 none],
          (computeStats [kc 100 105 99 103 (some 1000), kc 103 108 102 106 none]).maxPrice = c.high) ∧
      ((∀ c ∈ [kc 100 105 99 103 (some 1000), kc 103 108 102 106 none],
          (computeStats [kc 100 105 99 103 (some 1000), kc 103 108 102 106 none]).minPrice ≤ c.low) ∧
        ∃ c ∈ [kc 100 105 99 103 (some 1000), kc 103 108 102 106 none],
          (computeStats [kc 100 105 99 103 (some 1000), kc 103 108 102 106 none]).minPrice = c.low)) ∧
    (computeStats [kc 100 105 99 103 (some 1000), kc 103 108 102 106 none]).cumulativeVolume =
      (([kc 100 105 99 103 (some 1000), kc 103 108 102 106 none]).filterMap Candle.volume).sum ∧
    computeStats [] = ⟨0, 0, 0, 0, 0, 0, 0, 0⟩ ∧
    (mkCandleSet [kc 100 105 99 103 (some 1000), kc 103 108 102 106 none]).stats =
      computeStats [kc 100 105 99 103 (some 1000), kc 103 108 102 106 none] ∧
    (∀ (s : CandleSet) (more : List Candle),
      (s.addCandles more).stats = computeStats (s.candles ++ more) ∧
      (s.setCandles more).stats = computeStats more) :=
  ⟨by decide, candleSet_stats_correct _ (by decide)⟩

-- Chart constants from src/constants.ts (the ones the core claims use).

/-- Model of `CONSTANTS.WIDTH = CHAR_PRECISION + 1 + DEC_PRECISION + MARGIN_RIGHT`. -/
def WIDTH : ℚ := 4 + 1 + 2 + 2

/-- Model of `CONSTANTS.MARGIN_TOP`. -/
def MARGIN_TOP : ℚ := 3

/-- Model of `CONSTANTS.MIN_DIFF_THRESHOLD = 0.25`. -/
def MIN_DIFF_THRESHOLD : ℚ := 1 / 4

/-- Model of `CONSTANTS.MAX_DIFF_THRESHOLD = 0.75`. -/
def MAX_DIFF_THRESHOLD : ℚ := 3 / 4

def UNICODE_BODY : String := "┃"

def UNICODE_BOTTOM : String := "╿"

def UNICODE_HALF_BODY_BOTTOM : String := "╻"

def UNICODE_HALF_BODY_TOP : String := "╹"

def UNICODE_FILL : String := "┃"

def UNICODE_TOP : String := "╽"

def UNICODE_VOID : String := " "

def UNICODE_WICK : String := "│"

def UNICODE_WICK_LOWER : String := "╵"

def UNICODE_WICK_UPPER : String := "╷"

-- ChartData (src/chart/chart-data.ts).

/-- The three scaling modes of `ChartData`. -/
inductive ScalingMode where
  | fit : ScalingMode
  | fixed : ScalingMode
  | price : ScalingMode
deriving DecidableEq

/-- Model of `ChartData`'s margins record (defaults `{top: 3, right: 4, bottom: 2, left: 0}`). -/
structure Margins where
  top : ℚ
  right : ℚ
  bottom : ℚ
  left : ℚ
deriving DecidableEq

/-- Model of `ChartData` state.  The two `CandleSet`s are represented by their candle
lists; their statistics are always `computeStats` of those lists
(see `mkCandleSet`). -/
structure ChartData where
  mainCandles : List Candle
  visibleCandles : List Candle
  terminalWidth : ℚ
  terminalHeight : ℚ
  height : ℚ
  width : ℚ
  margins : Margins
  scalingMode : ScalingMode
  timeRange : Option (ℕ × ℕ)
  priceRange : Option (ℚ × ℚ)
deriving DecidableEq

/-- The available width computed at the top of `computeVisibleCandles`:
`this.width - CONSTANTS.WIDTH - this.margins.left - this.margins.right`. -/
def availableWidth (cd : ChartData) : ℚ :=
  cd.width - WIDTH - cd.margins.left - cd.margins.right

/-- Index set visited by the loop `for (let i = step; i < n - 1; i += step)`:
the positive multiples of `step` that are `< n - 1`, in order. -/
def jsLoopIdx (n step : ℕ) : List ℕ :=
  (List.range ((n - 2) / step)).map fun m => (m + 1) * step

/-- Model of `ChartData.sampleCandlesForWidth` on candle indices.
`step = Math.max(1, Math.floor(totalCandles / availableWidth))`:
for `availableWidth = 0` the JS quotient is `Infinity` and the loop body
never runs (empty middle); a negative quotient floors below zero and the
`max` makes the step `1`. -/
def sampleIdxForWidth (total : ℕ) (aw : ℚ) : List ℕ :=
  if (total : ℚ) ≤ aw then List.range total
  else
    let mid := if aw = 0 then []
      else jsLoopIdx total (max 1 (Int.toNat ⌊(total : ℚ) / aw⌋))
    0 :: (mid ++ if 1 < total then [total - 1] else [])

/-- Model of `ChartData.sampleCandlesForWidth`.  (With `total = 0` and a negative
`availableWidth` the source would push one `undefined` hole; the index
embedding drops it — that path never holds real candles.) -/
def sampleCandlesForWidth (allCandles : List Candle) (aw : ℚ) : List Candle :=
  (sampleIdxForWidth allCandles.length aw).filterMap allCandles.get?

/-- The body of `ChartData.computeVisibleCandles` as a pure function of the
state: which candle list becomes visible.  Branch order follows the source:
`fixed` with a time range slices, `price` with a price range filters by
body overlap, `fit` shows everything, and the residual `else` branch
(mode's range unset) samples for width. -/
def computeVisible (cd : ChartData) : List Candle :=
  match cd.scalingMode, cd.timeRange, cd.priceRange with
  | ScalingMode.fixed, some tr, _ => (cd.mainCandles.drop tr.1).take (tr.2 + 1 - tr.1)
  | ScalingMode.price, _, some pr =>
      cd.mainCandles.filter fun c =>
        decide (min c.open_ c.close ≤ pr.2) && decide (pr.1 ≤ max c.open_ c.close)
  | ScalingMode.fit, _, _ => cd.mainCandles
  | ScalingMode.fixed, none, _ => sampleCandlesForWidth cd.mainCandles (availableWidth cd)
  | ScalingMode.price, _, none => sampleCandlesForWidth cd.mainCandles (availableWidth cd)

/-- Model of `ChartData.computeVisibleCandles`: store the recomputed visible list. -/
def computeVisibleCandles (cd : ChartData) : ChartData :=
  { cd with visibleCandles := computeVisible cd }

/-- Model of `ChartData.resetCandles`: clears both sets directly. -/
def ChartData.resetCandles (cd : ChartData) : ChartData :=
  { cd with mainCandles := [], visibleCandles := [] }

/-- Model of `ChartData.addCandles`: appends to the main set and *clears* the
visible set (recomputation is deferred to the next
`computeVisibleCandles()` call). -/
def ChartData.addCandles (cd : ChartData) (candles : List Candle) : ChartData :=
  { cd with mainCandles := cd.mainCandles ++ candles, visibleCandles := [] }

/-- Model of `ChartData.setSize`. -/
def ChartData.setSize (cd : ChartData) (w h : ℚ) : ChartData :=
  { cd with terminalWidth := w, terminalHeight := h, width := w, height := h }

/-- Model of `ChartData.computeHeight`. -/
def ChartData.computeHeight (cd : ChartData) (volumePaneHeight : ℚ) : ChartData :=
  { cd with height := max (cd.terminalHeight - MARGIN_TOP - volumePaneHeight - 2) 10 }

/-- Model of `ChartData.setMargins`. -/
def ChartData.setMargins (cd : ChartData) (t r b l : ℚ) : ChartData :=
  computeVisibleCandles { cd with margins := ⟨t, r, b, l⟩ }

/-- Model of `ChartData.setScalingMode`. -/
def ChartData.setScalingMode (cd : ChartData) (mode : ScalingMode) : ChartData :=
  computeVisibleCandles { cd with scalingMode := mode }

/-- Model of `ChartData.setPriceRange`.  Returns the resulting state plus an optional
error message; the `throw` in the source precedes every assignment, so on
error the state is returned untouched. -/
def ChartData.setPriceRange (cd : ChartData) (minPrice maxPrice : ℚ) :
    ChartData × Option String :=
  if minPrice ≥ maxPrice then
    (cd, some "Minimum price must be less than maximum price")
  else
    (computeVisibleCandles { cd with priceRange := some (minPrice, maxPrice) }, none)

/-- Model of `ChartData.setTimeRange`. -/
def ChartData.setTimeRange (cd : ChartData) (startIndex endIndex : ℕ) : ChartData :=
  computeVisibleCandles { cd with timeRange := some (startIndex, endIndex) }

/-- Model of `ChartData.fitToData`. -/
def ChartData.fitToData (cd : ChartData) : ChartData :=
  computeVisibleCandles
    { cd with scalingMode := ScalingMode.fit, timeRange := none, priceRange := none }

/-- The `ChartData` constructor with explicit dimensions (terminal
auto-detection is the excluded host layer's concern). -/
def mkChartData (candles : List Candle) (w h : ℚ) : ChartData :=
  computeVisibleCandles
    { mainCandles := candles
      visibleCandles := []
      terminalWidth := w
      terminalHeight := h
      height := h
      width := w
      margins := ⟨3, 4, 2, 0⟩
      scalingMode := ScalingMode.fit
      timeRange := none
      priceRange := none }

-- YAxis (src/chart/y-axis.ts).

/-- Model of `YAxis.priceToHeights`: maps the candle's four prices into grid
coordinates `[high_y, low_y, max_y, min_y]` over the visible set's price
range, with the `|| 1` divisor guard. -/
def priceToHeights (cd : ChartData) (c : Candle) : ℚ × ℚ × ℚ × ℚ :=
  let height := cd.height
  let cs := computeStats cd.visibleCandles
  let minOpen := min c.close c.open_
  let maxOpen := max c.close c.open_
  let minValue := cs.minPrice
  let diff := jsOr1 (cs.maxPrice - minValue)
  (((c.high - minValue) / diff) * height,
   ((c.low - minValue) / diff) * height,
   ((maxOpen - minValue) / diff) * height,
   ((minOpen - minValue) / diff) * height)

lemma linear_map_bounds {mn mx p hgt : ℚ} (hh : 0 ≤ hgt) (h1 : mn ≤ p) (h2 : p ≤ mx) :
    0 ≤ (p - mn) / jsOr1 (mx - mn) * hgt ∧ (p - mn) / jsOr1 (mx - mn) * hgt ≤ hgt := by
  by_cases hd : mx - mn = 0
  · have hpm : p = mn := le_antisymm (by linarith) h1
    rw [hd, hpm]
    simp [jsOr1, hh]
  · have hpos : 0 < mx - mn := lt_of_le_of_ne (by linarith) (Ne.symm hd)
    have hguard : jsOr1 (mx - mn) = mx - mn := if_neg hd
    rw [hguard]
    have hr0 : 0 ≤ (p - mn) / (mx - mn) := div_nonneg (by linarith) (le_of_lt hpos)
    have hr1 : (p - mn) / (mx - mn) ≤ 1 := (div_le_one hpos).mpr (by linarith)
    constructor
    · exact mul_nonneg hr0 hh
    · calc (p - mn) / (mx - mn) * hgt ≤ 1 * hgt :=
            mul_le_mul_of_nonneg_right hr1 hh
        _ = hgt := one_mul hgt

/-- C4: for a candle whose high/low lie inside the visible set's price range
(and whose body sits between low and high), every component of
`priceToHeights` lies in `[0, height]`; and in the degenerate case
`maxPrice = minPrice` the divisor is guarded to `1`. -/
theorem priceToHeights_bounds (cd : ChartData) (c : Candle)
    (hh : 0 ≤ cd.height)
    (hlo : (computeStats cd.visibleCandles).minPrice ≤ c.low)
    (hhi : c.high ≤ (computeStats cd.visibleCandles).maxPrice)
    (hb1 : c.low ≤ min c.close c.open_)
    (hb2 : max c.close c.open_ ≤ c.high) :
    (0 ≤ (priceToHeights cd c).1 ∧ (priceToHeights cd c).1 ≤ cd.height) ∧
    (0 ≤ (priceToHeights cd c).2.1 ∧ (priceToHeights cd c).2.1 ≤ cd.height) ∧
    (0 ≤ (priceToHeights cd c).2.2.1 ∧ (priceToHeights cd c).2.2.1 ≤ cd.height) ∧
    (0 ≤ (priceToHeights cd c).2.2.2 ∧ (priceToHeights cd c).2.2.2 ≤ cd.height) ∧
    ((computeStats cd.visibleCandles).maxPrice = (computeStats cd.visibleCandles).minPrice →
      jsOr1 ((computeStats cd.visibleCandles).maxPrice -
        (computeStats cd.visibleCandles).minPrice) = 1) := by
  have hmm : min c.close c.open_ ≤ max c.close c.open_ :=
    min_le_max
  have hlh : c.low ≤ c.high := le_trans hb1 (le_trans hmm hb2)
  refine ⟨?_, ?_, ?_, ?_, ?_⟩
  · exact linear_map_bounds hh (le_trans hlo hlh) hhi
  · exact linear_map_bounds hh hlo (le_trans hlh hhi)
  · exact linear_map_bounds hh (le_trans hlo (le_trans hb1 hmm)) (le_trans hb2 hhi)
  · exact linear_map_bounds hh (le_trans hlo hb1) (le_trans (le_trans hmm hb2) hhi)
  · intro heq
    rw [heq, sub_self]
    rfl

/-- Concrete chart state for the C4 witness: one visible candle. -/
def cdW : ChartData :=
  { mainCandles := [kc 100 110 90 105 none]
    visibleCandles := [kc 100 110 90 105 none]
    terminalWidth := 120
    terminalHeight := 30
    height := 20
    width := 120
    margins := ⟨3, 4, 2, 0⟩
    scalingMode := ScalingMode.fit
    timeRange := none
    priceRange := none }

/-- Witness for C4 at a concrete candle and chart state. -/
theorem priceToHeights_bounds_witness :
    (0 ≤ cdW.height ∧
      (computeStats cdW.visibleCandles).minPrice ≤ (kc 100 110 90 105 none).low ∧
      (kc 100 110 90 105 none).high ≤ (computeStats cdW.visibleCandles).maxPrice ∧
      (kc 100 110 90 105 none).low ≤
        min (kc 100 110 90 105 none).close (kc 100 110 90 105 none).open_ ∧
      max (kc 100 110 90 105 none).close (kc 100 110 90 105 none).open_ ≤
        (kc 100 110 90 105 none).high) ∧
    (0 ≤ (priceToHeights cdW (kc 100 110 90 105 none)).1 ∧
      (priceToHeights cdW (kc 100 110 90 105 none)).1 ≤ cdW.height) :=
  ⟨⟨by decide, by decide, by decide, by decide, by decide⟩,
    (priceToHeights_bounds cdW (kc 100 110 90 105 none)
      (by decide) (by decide) (by decide) (by decide) (by decide)).1⟩

-- Glyph selection (src/chart/chart-renderer.ts).

/-- Model of `ChartRenderer.renderUpperCandlePart`. -/
def renderUpperCandlePart (heightUnit highY maxY : ℚ) : String :=
  let maxDiff := maxY - heightUnit
  let highDiff := highY - heightUnit
  if maxDiff > MAX_DIFF_THRESHOLD then UNICODE_BODY
  else if maxDiff > MIN_DIFF_THRESHOLD then
    (if highDiff > MAX_DIFF_THRESHOLD then UNICODE_TOP else UNICODE_HALF_BODY_BOTTOM)
  else if highDiff > MAX_DIFF_THRESHOLD then UNICODE_WICK
  else if highDiff > MIN_DIFF_THRESHOLD then UNICODE_WICK_UPPER
  else UNICODE_VOID

/-- Model of `ChartRenderer.renderLowerCandlePart`. -/
def renderLowerCandlePart (heightUnit lowY minY : ℚ) : String :=
  let minDiff := minY - heightUnit
  let lowDiff := lowY - heightUnit
  if minDiff < MIN_DIFF_THRESHOLD then UNICODE_BODY
  else if minDiff < MAX_DIFF_THRESHOLD then
    (if lowDiff < MIN_DIFF_THRESHOLD then UNICODE_BOTTOM else UNICODE_HALF_BODY_TOP)
  else if lowDiff < MIN_DIFF_THRESHOLD then UNICODE_WICK
  else if lowDiff < MAX_DIFF_THRESHOLD then UNICODE_WICK_LOWER
  else UNICODE_VOID

/-- Model of `ChartRenderer.determineCandleCharacter`. -/
def determineCandleCharacter (heightUnit highY lowY maxY minY : ℚ) : String :=
  if (⌈highY⌉ : ℚ) ≥ heightUnit ∧ heightUnit ≥ (⌊maxY⌋ : ℚ) then
    renderUpperCandlePart heightUnit highY maxY
  else if (⌈minY⌉ : ℚ) ≥ heightUnit ∧ heightUnit ≥ (⌊lowY⌋ : ℚ) then
    renderLowerCandlePart heightUnit lowY minY
  else if maxY ≥ heightUnit ∧ heightUnit ≥ (⌈minY⌉ : ℚ) then UNICODE_BODY
  else UNICODE_VOID

/-- C5: on every rational input the glyph cascade (including both helper
cascades) lands on one of the nine glyph constants — no branch is left
without a value. -/
theorem determineCandleCharacter_total (heightUnit highY lowY maxY minY : ℚ) :
    determineCandleCharacter heightUnit highY lowY maxY minY ∈
      [UNICODE_BODY, UNICODE_TOP, UNICODE_BOTTOM, UNICODE_HALF_BODY_TOP,
        UNICODE_HALF_BODY_BOTTOM, UNICODE_WICK, UNICODE_WICK_UPPER,
        UNICODE_WICK_LOWER, UNICODE_VOID] := by
  unfold determineCandleCharacter renderUpperCandlePart renderLowerCandlePart
  dsimp only
  split_ifs <;> simp

-- Claims about ChartData's visibility management.

lemma computeVisible_set_visible (cd : ChartData) (v : List Candle) :
    computeVisible { cd with visibleCandles := v } = computeVisible cd := rfl

lemma visible_after_recompute (cd : ChartData) :
    (computeVisibleCandles cd).visibleCandles = computeVisible (computeVisibleCandles cd) := rfl

/-- C6: in `price` mode with a configured range, the recomputed visible set
holds exactly the main-set candles whose body interval overlaps the range;
and `setPriceRange` errors exactly when `min ≥ max`. -/
theorem priceMode_visible_correct (cd : ChartData) (mn mx : ℚ)
    (hm : cd.scalingMode = ScalingMode.price)
    (hr : cd.priceRange = some (mn, mx)) :
    (∀ c : Candle, c ∈ (computeVisibleCandles cd).visibleCandles ↔
      (c ∈ cd.mainCandles ∧ min c.open_ c.close ≤ mx ∧ mn ≤ max c.open_ c.close)) ∧
    (∀ (st : ChartData) (a b : ℚ), b ≤ a → ((st.setPriceRange a b).2).isSome = true) ∧
    (∀ (st : ChartData) (a b : ℚ), a < b → (st.setPriceRange a b).2 = none) := by
  refine ⟨?_, ?_, ?_⟩
  · intro c
    rcases cd with ⟨main, vis, tw, th, hgt, w, mg, sm, tr, pr⟩
    dsimp at hm hr
    subst hm
    subst hr
    simp [computeVisibleCandles, computeVisible, List.mem_filter]
  · intro st a b hba
    simp [ChartData.setPriceRange, hba]
  · intro st a b hab
    have : ¬(a ≥ b) := not_le.mpr hab
    simp [ChartData.setPriceRange, this]

/-- Concrete state for the C6 witness: price mode, range `[100, 200]`. -/
def cd6 : ChartData :=
  { mainCandles := [kc 150 160 140 155 none, kc 300 310 290 305 none, kc 190 260 180 250 none]
    visibleCandles := []
    terminalWidth := 120
    terminalHeight := 30
    height := 20
    width := 120
    margins := ⟨3, 4, 2, 0⟩
    scalingMode := ScalingMode.price
    timeRange := none
    priceRange := some (100, 200) }

/-- Witness for C6 at `cd6`. -/
theorem priceMode_visible_correct_witness :
    (cd6.scalingMode = ScalingMode.price ∧ cd6.priceRange = some (100, 200)) ∧
    ((∀ c : Candle, c ∈ (computeVisibleCandles cd6).visibleCandles ↔
      (c ∈ cd6.mainCandles ∧ min c.open_ c.close ≤ 200 ∧ 100 ≤ max c.open_ c.close)) ∧
    (∀ (st : ChartData) (a b : ℚ), b ≤ a → ((st.setPriceRange a b).2).isSome = true) ∧
    (∀ (st : ChartData) (a b : ℚ), a < b → (st.setPriceRange a b).2 = none)) :=
  ⟨⟨rfl, rfl⟩, priceMode_visible_correct cd6 100 200 rfl rfl⟩

/-- C10: when `min ≥ max`, `setPriceRange` throws before mutating anything,
so the returned state is exactly the input state. -/
theorem setPriceRange_atomic (cd : ChartData) (mn mx : ℚ) (h : mx ≤ mn) :
    cd.setPriceRange mn mx =
      (cd, some "Minimum price must be less than maximum price") := by
  simp [ChartData.setPriceRange, h]

/-- Witness for C10: an invalid range on `cd6` leaves the state untouched. -/
theorem setPriceRange_atomic_witness :
    ((3 : ℚ) ≤ 5) ∧
    cd6.setPriceRange 5 3 =
      (cd6, some "Minimum price must be less than maximum price") :=
  ⟨by decide, setPriceRange_atomic cd6 5 3 (by decide)⟩

/-- C7 (amended): `fit` mode always shows the entire main sequence, with no
sampling; `sampleCandlesForWidth` is reached only in the fallback branch
where the mode's required range is unset. -/
theorem fitMode_shows_all (cd : ChartData) (hm : cd.scalingMode = ScalingMode.fit) :
    (computeVisibleCandles cd).visibleCandles = cd.mainCandles ∧
    (∀ cd' : ChartData, cd'.scalingMode = ScalingMode.fixed → cd'.timeRange = none →
      (computeVisibleCandles cd').visibleCandles =
        sampleCandlesForWidth cd'.mainCandles (availableWidth cd')) ∧
    (∀ cd' : ChartData, cd'.scalingMode = ScalingMode.price → cd'.priceRange = none →
      (computeVisibleCandles cd').visibleCandles =
        sampleCandlesForWidth cd'.mainCandles (availableWidth cd')) := by
  refine ⟨?_, ?_, ?_⟩
  · rcases cd with ⟨main, vis, tw, th, hgt, w, mg, sm, tr, pr⟩
    dsimp at hm
    subst hm
    cases tr <;> cases pr <;> rfl
  · intro cd' hm' ht'
    rcases cd' with ⟨main, vis, tw, th, hgt, w, mg, sm, tr, pr⟩
    dsimp at hm' ht'
    subst hm'
    subst ht'
    cases pr <;> rfl
  · intro cd' hm' hp'
    rcases cd' with ⟨main, vis, tw, th, hgt, w, mg, sm, tr, pr⟩
    dsimp at hm' hp'
    subst hm'
    subst hp'
    cases tr <;> rfl

/-- Five distinct candles for concrete sampling computations. -/
def kcs5 : List Candle :=
  [kc 1 2 0 1 none, kc 2 3 1 2 none, kc 3 4 2 3 none, kc 4 5 3 4 none, kc 5 6 4 5 none]

/-- Concrete state for the C7 counterexample: `fit` mode with five candles
but only two columns of available width (`15 - 9 - 0 - 4 = 2`). -/
def cd7 : ChartData :=
  { mainCandles := kcs5
    visibleCandles := []
    terminalWidth := 15
    terminalHeight := 30
    height := 20
    width := 15
    margins := ⟨3, 4, 2, 0⟩
    scalingMode := ScalingMode.fit
    timeRange := none
    priceRange := none }

/-- Counterexample for C7 as stated: in `fit` mode with more candles than
available width, the recomputed visible set is the whole main sequence,
not the sampling result. -/
theorem fitMode_no_sampling_counterexample :
    cd7.scalingMode = ScalingMode.fit ∧
    availableWidth cd7 < (cd7.mainCandles.length : ℚ) ∧
    (computeVisibleCandles cd7).visibleCandles ≠
      sampleCandlesForWidth cd7.mainCandles (availableWidth cd7) := by
  have haw : availableWidth cd7 = 2 := by norm_num [availableWidth, cd7, WIDTH]
  have hidx : sampleIdxForWidth 5 2 = [0, 2, 4] := by
    rw [sampleIdxForWidth, if_neg (by norm_num), if_neg (by norm_num)]
    rw [show ⌊((5 : ℕ) : ℚ) / 2⌋ = 2 by norm_num]
    decide
  have hs : sampleCandlesForWidth cd7.mainCandles 2 =
      [kc 1 2 0 1 none, kc 3 4 2 3 none, kc 5 6 4 5 none] := by
    show (sampleIdxForWidth 5 2).filterMap _ = _
    rw [hidx]
    decide
  refine ⟨rfl, ?_, ?_⟩
  · rw [haw]
    norm_num [cd7, kcs5]
  · rw [haw, hs]
    decide

/-- Witness for C7 (amended) at `cd7`. -/
theorem fitMode_shows_all_witness :
    cd7.scalingMode = ScalingMode.fit ∧
    (computeVisibleCandles cd7).visibleCandles = cd7.mainCandles :=
  ⟨rfl, (fitMode_shows_all cd7 rfl).1⟩

/-- C8 (amended): every listed state-changing operation except `addCandles`
leaves the visible set equal to the pure recomputation from the new state;
`addCandles` instead clears the visible set, deferring recomputation. -/
theorem visible_recomputed_after_ops (cd : ChartData) (candles : List Candle)
    (mode : ScalingMode) (t r b l mn mx : ℚ) (s e : ℕ)
    (hw : 0 ≤ availableWidth cd) (hpr : mn < mx) :
    cd.resetCandles.visibleCandles = computeVisible cd.resetCandles ∧
    (cd.setMargins t r b l).visibleCandles = computeVisible (cd.setMargins t r b l) ∧
    (cd.setScalingMode mode).visibleCandles = computeVisible (cd.setScalingMode mode) ∧
    (cd.setTimeRange s e).visibleCandles = computeVisible (cd.setTimeRange s e) ∧
    cd.fitToData.visibleCandles = computeVisible cd.fitToData ∧
    ((cd.setPriceRange mn mx).1).visibleCandles =
      computeVisible (cd.setPriceRange mn mx).1 ∧
    (cd.addCandles candles).visibleCandles = [] := by
  have hok : ¬(mn ≥ mx) := not_le.mpr hpr
  refine ⟨?_, rfl, rfl, rfl, rfl, ?_, rfl⟩
  · rcases cd with ⟨main, vis, tw, th, hgt, w, mg, sm, tr, pr⟩
    simp only [availableWidth] at hw
    cases sm <;> cases tr <;> cases pr <;>
      simp [ChartData.resetCandles, computeVisible, sampleCandlesForWidth,
        sampleIdxForWidth, availableWidth, hw]
  · have hstep : cd.setPriceRange mn mx =
        (computeVisibleCandles { cd with priceRange := some (mn, mx) }, none) := by
      rw [ChartData.setPriceRange, if_neg hok]
    rw [hstep]
    rfl

/-- Witness for C8 (amended) at `cd6`. -/
theorem visible_recomputed_after_ops_witness :
    (0 ≤ availableWidth cd6 ∧ (100 : ℚ) < 200) ∧
    (cd6.resetCandles.visibleCandles = computeVisible cd6.resetCandles ∧
    (cd6.setMargins 1 1 1 1).visibleCandles = computeVisible (cd6.setMargins 1 1 1 1) ∧
    (cd6.setScalingMode ScalingMode.fit).visibleCandles =
      computeVisible (cd6.setScalingMode ScalingMode.fit) ∧
    (cd6.setTimeRange 0 1).visibleCandles = computeVisible (cd6.setTimeRange 0 1) ∧
    cd6.fitToData.visibleCandles = computeVisible cd6.fitToData ∧
    ((cd6.setPriceRange 100 200).1).visibleCandles =
      computeVisible (cd6.setPriceRange 100 200).1 ∧
    (cd6.addCandles kcs5).visibleCandles = []) :=
  ⟨⟨by norm_num [availableWidth, cd6, WIDTH], by norm_num⟩,
    visible_recomputed_after_ops cd6 kcs5 ScalingMode.fit 1 1 1 1 100 200 0 1
      (by norm_num [availableWidth, cd6, WIDTH]) (by norm_num)⟩

/-- Concrete state for the C8 counterexample. -/
def cd8 : ChartData :=
  { mainCandles := [kc 1 2 0 1 none]
    visibleCandles := [kc 1 2 0 1 none]
    terminalWidth := 120
    terminalHeight := 30
    height := 20
    width := 120
    margins := ⟨3, 4, 2, 0⟩
    scalingMode := ScalingMode.fit
    timeRange := none
    priceRange := none }

/-- Counterexample for C8 as stated: after `addCandles` the visible set is
left cleared, not equal to the recomputation from the new state. -/
theorem addCandles_stale_counterexample :
    (cd8.addCandles [kc 2 3 1 2 none]).visibleCandles ≠
      computeVisible (cd8.addCandles [kc 2 3 1 2 none]) := by decide

-- VolumePane (src/chart/chart.ts).

/-- Model of `truecolor` from src/utils/core.ts: wrap text in a 24-bit ANSI color
escape. -/
def truecolor (value : String) (r g b : ℕ) : String :=
  "\x1b[38;2;" ++ toString r ++ ";" ++ toString g ++ ";" ++ toString b ++
    "m" ++ value ++ "\x1b[00m"

/-- Model of `VolumePane` state: pane height, the two bar colors, and the fill
glyph (default `CONSTANTS.UNICODE_FILL`). -/
structure VolumePane where
  height : ℚ
  bearishColor : ℕ × ℕ × ℕ
  bullishColor : ℕ × ℕ × ℕ
  unicodeFill : String
deriving DecidableEq

/-- Model of `VolumePane.colorize`. -/
def VolumePane.colorize (vp : VolumePane) (candleType : CandleType) (s : String) : String :=
  match candleType with
  | CandleType.Bearish => truecolor s vp.bearishColor.1 vp.bearishColor.2.1 vp.bearishColor.2.2
  | CandleType.Bullish => truecolor s vp.bullishColor.1 vp.bullishColor.2.1 vp.bullishColor.2.2

/-- Model of `VolumePane.render`: bar glyph for one candle at one pane row. -/
def VolumePane.render (vp : VolumePane) (c : Candle) (y : ℚ) (maxVolume : ℚ) : String :=
  match c.volume with
  | none => " "
  | some v =>
    let volumePercentOfMax := v / jsOr1 maxVolume
    let r := volumePercentOfMax * vp.height
    if y < (⌈r⌉ : ℚ) then vp.colorize c.type vp.unicodeFill
    else if y = 1 ∧ vp.unicodeFill = UNICODE_FILL then
      vp.colorize c.type UNICODE_HALF_BODY_BOTTOM
    else " "

/-- C9 (amended): with the default fill glyph, a zero-volume candle renders
void at every row except row `1`, where it renders the colored half-cap
glyph; a candle with missing volume renders void at every row
unconditionally. -/
theorem volumePane_zero_and_missing (vp : VolumePane) (c : Candle) (y maxVolume : ℚ)
    (hfill : vp.unicodeFill = UNICODE_FILL) (hy : 1 ≤ y) :
    (c.volume = some 0 →
      (y ≠ 1 → vp.render c y maxVolume = " ") ∧
      (y = 1 → vp.render c y maxVolume = vp.colorize c.type UNICODE_HALF_BODY_BOTTOM)) ∧
    (c.volume = none → vp.render c y maxVolume = " ") := by
  have hnotfill : ¬(y < ((⌈(0 : ℚ) * vp.height⌉ : ℤ) : ℚ)) := by
    rw [zero_mul, Int.ceil_zero, Int.cast_zero]
    linarith
  constructor
  · intro hv
    constructor
    · intro hne
      rw [VolumePane.render, hv]
      dsimp only
      rw [zero_div, if_neg hnotfill, if_neg (fun hand => hne hand.1)]
    · intro h1
      rw [VolumePane.render, hv]
      dsimp only
      rw [zero_div, if_neg hnotfill, if_pos ⟨h1, hfill⟩]
  · intro hv
    rw [VolumePane.render, hv]

/-- The default volume pane of the source (height 5, default colors and
fill glyph). -/
def vpDefault : VolumePane :=
  ⟨5, (234, 74, 90), (52, 208, 88), UNICODE_FILL⟩

/-- Counterexample for C9 as stated: at row `1` a zero-volume candle does
not render void — the default fill makes it a colored half-cap. -/
theorem volumePane_zero_row_one_counterexample :
    vpDefault.render (kc 1 2 0 1 (some 0)) 1 100 ≠ " " := by
  rw [VolumePane.render]
  dsimp only [kc]
  rw [zero_div, zero_mul, Int.ceil_zero, Int.cast_zero]
  rw [if_neg (by norm_num), if_pos ⟨rfl, rfl⟩]
  decide

/-- Witness for C9 (amended) at a concrete candle and rows 1 and 2. -/
theorem volumePane_zero_and_missing_witness :
    (vpDefault.unicodeFill = UNICODE_FILL ∧ (1 : ℚ) ≤ 2) ∧
    (((kc 1 2 0 1 (some 0)).volume = some 0 →
      ((2 : ℚ) ≠ 1 → vpDefault.render (kc 1 2 0 1 (some 0)) 2 100 = " ") ∧
      ((2 : ℚ) = 1 → vpDefault.render (kc 1 2 0 1 (some 0)) 2 100 =
        vpDefault.colorize (kc 1 2 0 1 (some 0)).type UNICODE_HALF_BODY_BOTTOM)) ∧
    ((kc 1 2 0 1 (some 0)).volume = none →
      vpDefault.render (kc 1 2 0 1 (some 0)) 2 100 = " ")) :=
  ⟨⟨rfl, by norm_num⟩,
    volumePane_zero_and_missing vpDefault (kc 1 2 0 1 (some 0)) 2 100 rfl (by norm_num)⟩

-- ChartRenderer sampling (src/chart/chart.ts, sampleCandles /
-- fillRemainingCandles / findInsertPosition), modelled on candle indices.

/-- Model of `sampled.splice(pos, 0, x)` — insert `x` at position `pos`
(positions past the end append, as in JS). -/
def insertAt : ℕ → ℕ → List ℕ → List ℕ
  | 0, x, l => x :: l
  | _ + 1, x, [] => [x]
  | k + 1, x, y :: l => y :: insertAt k x l

/-- Model of `ChartRenderer.findInsertPosition` on indices: the position of the
first sampled entry whose original index exceeds `candleIndex`, or the
length when there is none. -/
def findInsertPosition (sampled : List ℕ) (candleIndex : ℕ) : ℕ :=
  sampled.findIdx fun j => decide (candleIndex < j)

/-- One iteration of the `fillRemainingCandles` loop body.  The `break`
check (`sampled.length >= targetCount`) re-tested here every iteration is
equivalent to breaking, because the length never decreases. -/
def fillStep (targetCount : ℕ) (sampled : List ℕ) (i : ℕ) : List ℕ :=
  if targetCount ≤ sampled.length then sampled
  else if i ∈ sampled then sampled
  else insertAt (findInsertPosition sampled i) i sampled

/-- Model of `ChartRenderer.fillRemainingCandles` on indices.  Only ever invoked
with `sampled.length < targetCount`, so `remaining ≥ 1`. -/
def fillRemainingCandles (n targetCount : ℕ) (sampled : List ℕ) : List ℕ :=
  let remaining := targetCount - sampled.length
  let gapStep := max 1 (n / (remaining * 2))
  (jsLoopIdx n gapStep).foldl (fillStep targetCount) sampled

/-- First phase of `ChartRenderer.sampleCandles` on indices (`n` = input
length): `sampled = [0]` plus the strided middle loop.
For `targetCount = 2` the JS step is `Math.floor(n / 0) = Infinity`, so the
middle loop never runs; for `targetCount ≤ 1` the JS step is
`max(1, ⌊negative⌋) = 1` and the middle loop's break check
(`length ≥ targetCount - 1`) fires on its first iteration, so nothing is
pushed either way.  The main loop's `break` is modelled like the fill
loop's: once `t - 1 ≤ length` holds it holds forever. -/
def sampleBase (n t : ℕ) : List ℕ :=
  if t = 2 then [0]
  else
    (jsLoopIdx n (if 3 ≤ t then max 1 (n / (t - 2)) else 1)).foldl
      (fun sampled i => if t - 1 ≤ sampled.length then sampled else sampled ++ [i]) [0]

/-- Rest of `ChartRenderer.sampleCandles` on indices: append the last
index, gap-fill if still short of the target, then `slice(0, targetCount)`
(which is `take` for a natural target). -/
def sampleIdx (n t : ℕ) : List ℕ :=
  if n ≤ t then List.range n
  else
    let withLast := sampleBase n t ++ [n - 1]
    (if withLast.length < t then fillRemainingCandles n t withLast else withLast).take t

/-- Model of `ChartRenderer.sampleCandles`: the sampled indices looked up in the
input list (every produced index is in range, see
`sampleIdx_lt_length`). -/
def sampleCandles (candles : List Candle) (targetCount : ℕ) : List Candle :=
  (sampleIdx candles.length targetCount).filterMap candles.get?

-- jsLoopIdx facts.

lemma jsLoopIdx_one_le {n step m : ℕ} (hstep : 1 ≤ step) (h : m ∈ jsLoopIdx n step) :
    1 ≤ m := by
  rcases List.mem_map.mp h with ⟨k, _, rfl⟩
  calc 1 ≤ step := hstep
    _ ≤ (k + 1) * step := Nat.le_mul_of_pos_left step (Nat.succ_pos k)

lemma jsLoopIdx_le {n step m : ℕ} (h : m ∈ jsLoopIdx n step) : m ≤ n - 2 := by
  rcases List.mem_map.mp h with ⟨k, hk, rfl⟩
  have hk' : k + 1 ≤ (n - 2) / step := List.mem_range.mp hk
  calc (k + 1) * step ≤ (n - 2) / step * step :=
        Nat.mul_le_mul_right step hk'
    _ ≤ n - 2 := Nat.div_mul_le_self (n - 2) step

lemma jsLoopIdx_lt_pred {n step m : ℕ} (hn : 2 ≤ n) (h : m ∈ jsLoopIdx n step) :
    m < n - 1 := by
  have h1 := jsLoopIdx_le h
  omega

lemma jsLoopIdx_pairwise (n step : ℕ) (hstep : 1 ≤ step) :
    (jsLoopIdx n step).Pairwise (· < ·) := by
  rw [jsLoopIdx, List.pairwise_map]
  have := List.pairwise_lt_range ((n - 2) / step)
  exact this.imp_of_mem fun {a b} _ _ hab =>
    (Nat.mul_lt_mul_right (Nat.lt_of_lt_of_le Nat.zero_lt_one hstep)).mpr (by omega)

-- Main-loop fold invariants.

lemma mainFold_pairwise_subset (t : ℕ) :
    ∀ (L acc : List ℕ), acc.Pairwise (· < ·) → L.Pairwise (· < ·) →
      (∀ a ∈ acc, ∀ b ∈ L, a < b) →
      ((L.foldl (fun s i => if t - 1 ≤ s.length then s else s ++ [i]) acc).Pairwise (· < ·) ∧
        ∀ x ∈ L.foldl (fun s i => if t - 1 ≤ s.length then s else s ++ [i]) acc,
          x ∈ acc ∨ x ∈ L) := by
  intro L
  induction L with
  | nil => exact fun acc h1 _ _ => ⟨h1, fun x hx => Or.inl hx⟩
  | cons b L' ih =>
    intro acc h1 h2 h3
    rw [List.foldl_cons]
    have h2' := (List.pairwise_cons.mp h2).2
    have hbL : ∀ c ∈ L', b < c := (List.pairwise_cons.mp h2).1
    by_cases hc : t - 1 ≤ acc.length
    · rw [if_pos hc]
      have h3' : ∀ a ∈ acc, ∀ c ∈ L', a < c :=
        fun a ha c hc' => h3 a ha c (List.mem_cons_of_mem b hc')
      rcases ih acc h1 h2' h3' with ⟨hp, hsub⟩
      exact ⟨hp, fun x hx => (hsub x hx).imp id (List.mem_cons_of_mem b)⟩
    · rw [if_neg hc]
      have hacc' : (acc ++ [b]).Pairwise (· < ·) := by
        rw [List.pairwise_append]
        refine ⟨h1, List.pairwise_singleton _ b, fun a ha c hc' => ?_⟩
        rw [List.mem_singleton] at hc'
        rw [hc']
        exact h3 a ha b (List.mem_cons_self b L')
      have h3' : ∀ a ∈ acc ++ [b], ∀ c ∈ L', a < c := by
        intro a ha c hc'
        rcases List.mem_append.mp ha with ha | ha
        · exact h3 a ha c (List.mem_cons_of_mem b hc')
        · rw [List.mem_singleton] at ha
          subst ha
          exact hbL c hc'
      rcases ih (acc ++ [b]) hacc' h2' h3' with ⟨hp, hsub⟩
      refine ⟨hp, fun x hx => ?_⟩
      rcases hsub x hx with hx' | hx'
      · rcases List.mem_append.mp hx' with h | h
        · exact Or.inl h
        · rw [List.mem_singleton] at h
          exact Or.inr (h ▸ List.mem_cons_self b L')
      · exact Or.inr (List.mem_cons_of_mem b hx')

lemma mainFold_cons (t : ℕ) :
    ∀ (L : List ℕ) (a : ℕ) (rest : List ℕ),
      ∃ rest2, L.foldl (fun s i => if t - 1 ≤ s.length then s else s ++ [i]) (a :: rest) =
        a :: rest2 := by
  intro L
  induction L with
  | nil => exact fun a rest => ⟨rest, rfl⟩
  | cons b L' ih =>
    intro a rest
    rw [List.foldl_cons]
    by_cases hc : t - 1 ≤ (a :: rest).length
    · rw [if_pos hc]
      exact ih a rest
    · rw [if_neg hc]
      exact ih a (rest ++ [b])

lemma mainFold_length_le (t : ℕ) :
    ∀ (L acc : List ℕ), acc.length ≤ t - 1 →
      (L.foldl (fun s i => if t - 1 ≤ s.length then s else s ++ [i]) acc).length ≤ t - 1 := by
  intro L
  induction L with
  | nil => exact fun acc h => h
  | cons b L' ih =>
    intro acc h
    rw [List.foldl_cons]
    by_cases hc : t - 1 ≤ acc.length
    · rw [if_pos hc]
      exact ih acc h
    · rw [if_neg hc]
      refine ih _ ?_
      rw [List.length_append, List.length_singleton]
      omega

-- insertAt / findInsertPosition facts.

lemma insertAt_mem {p v x : ℕ} : ∀ {l : List ℕ}, x ∈ insertAt p v l ↔ x = v ∨ x ∈ l := by
  induction p with
  | zero => intro l; simp [insertAt]
  | succ k ih =>
    intro l
    cases l with
    | nil => simp [insertAt]
    | cons y ys =>
      simp only [insertAt, List.mem_cons, ih]
      tauto

lemma insertAt_length (v : ℕ) : ∀ (p : ℕ) (l : List ℕ),
    (insertAt p v l).length = l.length + 1 := by
  intro p
  induction p with
  | zero => intro l; rfl
  | succ k ih =>
    intro l
    cases l with
    | nil => rfl
    | cons y ys => simp [insertAt, ih ys]

lemma insert_fip_pairwise : ∀ {l : List ℕ} {v : ℕ},
    l.Pairwise (· < ·) → v ∉ l →
    (insertAt (findInsertPosition l v) v l).Pairwise (· < ·) := by
  intro l
  induction l with
  | nil =>
    intro v _ _
    exact List.pairwise_singleton _ v
  | cons a rest ih =>
    intro v hs hv
    have hva' : v ≠ a := fun h => hv (h ▸ List.mem_cons_self a rest)
    have hrest : v ∉ rest := fun h => hv (List.mem_cons_of_mem a h)
    have hs' := (List.pairwise_cons.mp hs).2
    have hhead : ∀ b ∈ rest, a < b := (List.pairwise_cons.mp hs).1
    rw [findInsertPosition, List.findIdx_cons]
    by_cases hva : v < a
    · rw [decide_eq_true hva, cond_true]
      show (v :: a :: rest).Pairwise (· < ·)
      refine List.pairwise_cons.mpr ⟨?_, hs⟩
      intro b hb
      rcases List.mem_cons.mp hb with hb | hb
      · exact hb ▸ hva
      · exact lt_trans hva (hhead b hb)
    · rw [decide_eq_false hva, cond_false]
      show (a :: insertAt (findInsertPosition rest v) v rest).Pairwise (· < ·)
      refine List.pairwise_cons.mpr ⟨?_, ih hs' hrest⟩
      intro b hb
      rcases insertAt_mem.mp hb with hb | hb
      · subst hb
        exact lt_of_le_of_ne (not_lt.mp hva) (Ne.symm hva')
      · exact hhead b hb

lemma insert_fip_head {rest : List ℕ} {v : ℕ} :
    (insertAt (findInsertPosition (0 :: rest) v) v (0 :: rest)).head? = some 0 := by
  rw [findInsertPosition, List.findIdx_cons]
  rw [decide_eq_false (Nat.not_lt_zero v), cond_false]
  rfl

lemma getLast?_cons_ne_nil {α : Type} {X : List α} (x : α) (h : X ≠ []) :
    (x :: X).getLast? = X.getLast? := by
  cases X with
  | nil => exact absurd rfl h
  | cons y ys => exact List.getLast?_cons_cons

lemma insertAt_ne_nil {p v : ℕ} {l : List ℕ} : insertAt p v l ≠ [] := by
  intro h
  have := insertAt_length v p l
  rw [h] at this
  simp at this

lemma insert_fip_getLast : ∀ {l : List ℕ} {v j : ℕ}, j ∈ l → v < j →
    (insertAt (findInsertPosition l v) v l).getLast? = l.getLast? := by
  intro l
  induction l with
  | nil => intro v j hj _; cases hj
  | cons a rest ih =>
    intro v j hj hvj
    rw [findInsertPosition, List.findIdx_cons]
    by_cases hva : v < a
    · rw [decide_eq_true hva, cond_true]
      show (v :: a :: rest).getLast? = (a :: rest).getLast?
      exact List.getLast?_cons_cons
    · rw [decide_eq_false hva, cond_false]
      show (a :: insertAt (findInsertPosition rest v) v rest).getLast? = (a :: rest).getLast?
      have hj' : j ∈ rest := by
        rcases List.mem_cons.mp hj with h | h
        · exact absurd (h ▸ hvj) hva
        · exact h
      have hrne : rest ≠ [] := fun h => by rw [h] at hj'; cases hj'
      rw [getLast?_cons_ne_nil a insertAt_ne_nil, getLast?_cons_ne_nil a hrne]
      exact ih hj' hvj

-- Gap-fill fold invariants.

lemma fillFold_pairwise_subset (t : ℕ) :
    ∀ (L acc : List ℕ), acc.Pairwise (· < ·) →
      ((L.foldl (fillStep t) acc).Pairwise (· < ·) ∧
        ∀ x ∈ L.foldl (fillStep t) acc, x ∈ acc ∨ x ∈ L) := by
  intro L
  induction L with
  | nil => exact fun acc h => ⟨h, fun x hx => Or.inl hx⟩
  | cons b L' ih =>
    intro acc h
    rw [List.foldl_cons]
    by_cases h1 : t ≤ acc.length
    · have hstep : fillStep t acc b = acc := by rw [fillStep, if_pos h1]
      rw [hstep]
      rcases ih acc h with ⟨hp, hs⟩
      exact ⟨hp, fun x hx => (hs x hx).imp id (List.mem_cons_of_mem b)⟩
    · by_cases h2 : b ∈ acc
      · have hstep : fillStep t acc b = acc := by rw [fillStep, if_neg h1, if_pos h2]
        rw [hstep]
        rcases ih acc h with ⟨hp, hs⟩
        exact ⟨hp, fun x hx => (hs x hx).imp id (List.mem_cons_of_mem b)⟩
      · have hstep : fillStep t acc b = insertAt (findInsertPosition acc b) b acc := by
          rw [fillStep, if_neg h1, if_neg h2]
        rw [hstep]
        rcases ih _ (insert_fip_pairwise h h2) with ⟨hp, hs⟩
        refine ⟨hp, fun x hx => ?_⟩
        rcases hs x hx with hx' | hx'
        · rcases insertAt_mem.mp hx' with hx'' | hx''
          · exact Or.inr (hx'' ▸ List.mem_cons_self b L')
          · exact Or.inl hx''
        · exact Or.inr (List.mem_cons_of_mem b hx')

lemma fillFold_endpoints (t n : ℕ) :
    ∀ (L acc : List ℕ), (∀ i ∈ L, i < n - 1) → (∀ i ∈ L, 1 ≤ i) →
      acc.head? = some 0 → acc.getLast? = some (n - 1) → (n - 1) ∈ acc →
      acc.length ≤ t →
      ((L.foldl (fillStep t) acc).head? = some 0 ∧
        (L.foldl (fillStep t) acc).getLast? = some (n - 1) ∧
        (L.foldl (fillStep t) acc).length ≤ t) := by
  intro L
  induction L with
  | nil => exact fun acc _ _ hh hl _ hlen => ⟨hh, hl, hlen⟩
  | cons b L' ih =>
    intro acc hbnd hone hh hl hm hlen
    rw [List.foldl_cons]
    have hbnd' : ∀ i ∈ L', i < n - 1 := fun i hi => hbnd i (List.mem_cons_of_mem b hi)
    have hone' : ∀ i ∈ L', 1 ≤ i := fun i hi => hone i (List.mem_cons_of_mem b hi)
    by_cases h1 : t ≤ acc.length
    · have hstep : fillStep t acc b = acc := by rw [fillStep, if_pos h1]
      rw [hstep]
      exact ih acc hbnd' hone' hh hl hm hlen
    · by_cases h2 : b ∈ acc
      · have hstep : fillStep t acc b = acc := by rw [fillStep, if_neg h1, if_pos h2]
        rw [hstep]
        exact ih acc hbnd' hone' hh hl hm hlen
      · have hstep : fillStep t acc b = insertAt (findInsertPosition acc b) b acc := by
          rw [fillStep, if_neg h1, if_neg h2]
        rw [hstep]
        have hbb : b < n - 1 := hbnd b (List.mem_cons_self b L')
        refine ih _ hbnd' hone' ?_ ?_ ?_ ?_
        · cases acc with
          | nil => cases hh
          | cons a rest =>
            have ha : a = 0 := by
              have : some a = some 0 := hh
              injection this
            subst ha
            exact insert_fip_head
        · rw [insert_fip_getLast hm hbb]
          exact hl
        · exact insertAt_mem.mpr (Or.inr hm)
        · rw [insertAt_length]
          omega

-- sampleBase facts.

lemma sampleBaseFold_pairwise_mem (n t step : ℕ) (hstep : 1 ≤ step) :
    (((jsLoopIdx n step).foldl
        (fun sampled i => if t - 1 ≤ sampled.length then sampled else sampled ++ [i])
        [0]).Pairwise (· < ·) ∧
      ∀ x ∈ (jsLoopIdx n step).foldl
        (fun sampled i => if t - 1 ≤ sampled.length then sampled else sampled ++ [i]) [0],
        x = 0 ∨ (1 ≤ x ∧ x ≤ n - 2)) := by
  have h0 : ([0] : List ℕ).Pairwise (· < ·) := List.pairwise_singleton _ 0
  have hL := jsLoopIdx_pairwise n step hstep
  have hcross : ∀ a ∈ ([0] : List ℕ), ∀ b ∈ jsLoopIdx n step, a < b := by
    intro a ha b hb
    rw [List.mem_singleton] at ha
    rw [ha]
    exact Nat.lt_of_lt_of_le Nat.zero_lt_one (jsLoopIdx_one_le hstep hb)
  rcases mainFold_pairwise_subset t (jsLoopIdx n step) [0] h0 hL hcross with ⟨hp, hs⟩
  refine ⟨hp, fun x hx => ?_⟩
  rcases hs x hx with hx' | hx'
  · rw [List.mem_singleton] at hx'
    exact Or.inl hx'
  · exact Or.inr ⟨jsLoopIdx_one_le hstep hx', jsLoopIdx_le hx'⟩

lemma sampleBase_pairwise_mem (n t : ℕ) :
    (sampleBase n t).Pairwise (· < ·) ∧
    ∀ x ∈ sampleBase n t, x = 0 ∨ (1 ≤ x ∧ x ≤ n - 2) := by
  rw [sampleBase]
  split_ifs with h2 h3
  · refine ⟨List.pairwise_singleton _ 0, fun x hx => ?_⟩
    rw [List.mem_singleton] at hx
    exact Or.inl hx
  · exact sampleBaseFold_pairwise_mem n t _ (le_max_left 1 _)
  · exact sampleBaseFold_pairwise_mem n t 1 (le_refl 1)

lemma sampleBase_cons (n t : ℕ) : ∃ rest, sampleBase n t = 0 :: rest := by
  rw [sampleBase]
  split_ifs
  · exact ⟨[], rfl⟩
  · exact mainFold_cons t _ 0 []
  · exact mainFold_cons t _ 0 []

lemma sampleBase_length_le (n t : ℕ) (ht : 2 ≤ t) : (sampleBase n t).length ≤ t - 1 := by
  rw [sampleBase]
  split_ifs
  · simp
    omega
  · refine mainFold_length_le t _ [0] ?_
    rw [List.length_singleton]
    omega
  · refine mainFold_length_le t _ [0] ?_
    rw [List.length_singleton]
    omega

lemma sampleIdx_eq (n t : ℕ) (h : ¬n ≤ t) :
    sampleIdx n t =
      (if (sampleBase n t ++ [n - 1]).length < t
        then fillRemainingCandles n t (sampleBase n t ++ [n - 1])
        else sampleBase n t ++ [n - 1]).take t := by
  rw [sampleIdx, if_neg h]

lemma fillRemainingCandles_eq (n t : ℕ) (sampled : List ℕ) :
    fillRemainingCandles n t sampled =
      (jsLoopIdx n (max 1 (n / ((t - sampled.length) * 2)))).foldl (fillStep t) sampled := rfl

lemma sampleIdx_pairwise_lt (n t : ℕ) :
    (sampleIdx n t).Pairwise (· < ·) ∧ ∀ i ∈ sampleIdx n t, i < n := by
  by_cases hnt : n ≤ t
  · rw [sampleIdx, if_pos hnt]
    exact ⟨List.pairwise_lt_range n, fun i hi => List.mem_range.mp hi⟩
  · by_cases hn2 : n < 2
    · have hn : n = 1 := by omega
      have ht : t = 0 := by omega
      subst hn
      subst ht
      have h10 : sampleIdx 1 0 = [] := by decide
      rw [h10]
      exact ⟨List.Pairwise.nil, fun i hi => absurd hi (List.not_mem_nil i)⟩
    · push_neg at hn2
      rw [sampleIdx_eq n t hnt]
      rcases sampleBase_pairwise_mem n t with ⟨hbp, hbm⟩
      have hwl_pair : (sampleBase n t ++ [n - 1]).Pairwise (· < ·) := by
        rw [List.pairwise_append]
        refine ⟨hbp, List.pairwise_singleton _ _, ?_⟩
        intro a ha b hb
        rw [List.mem_singleton] at hb
        rcases hbm a ha with ha' | ⟨_, ha'⟩ <;> omega
      have hwl_mem : ∀ x ∈ sampleBase n t ++ [n - 1], x < n := by
        intro x hx
        rcases List.mem_append.mp hx with hx | hx
        · rcases hbm x hx with hx' | ⟨_, hx'⟩ <;> omega
        · rw [List.mem_singleton] at hx
          omega
      by_cases hlen : (sampleBase n t ++ [n - 1]).length < t
      · rw [if_pos hlen, fillRemainingCandles_eq]
        rcases fillFold_pairwise_subset t
          (jsLoopIdx n (max 1 (n / ((t - (sampleBase n t ++ [n - 1]).length) * 2))))
          (sampleBase n t ++ [n - 1]) hwl_pair with ⟨hp, hs⟩
        refine ⟨hp.sublist (List.take_sublist t _), fun i hi => ?_⟩
        have hi' := List.take_subset t _ hi
        rcases hs i hi' with h | h
        · exact hwl_mem i h
        · have := jsLoopIdx_le h
          omega
      · rw [if_neg hlen]
        refine ⟨hwl_pair.sublist (List.take_sublist t _), fun i hi => ?_⟩
        exact hwl_mem i (List.take_subset t _ hi)

lemma sampleIdx_endpoints (n t : ℕ) (ht : 2 ≤ t) (hn : t < n) :
    sampleIdx n t ≠ [] ∧ (sampleIdx n t).head? = some 0 ∧
      (sampleIdx n t).getLast? = some (n - 1) := by
  have hnt : ¬n ≤ t := by omega
  have hn2 : 2 ≤ n := by omega
  rw [sampleIdx_eq n t hnt]
  obtain ⟨rest, hbase⟩ := sampleBase_cons n t
  have hwl_cons : sampleBase n t ++ [n - 1] = 0 :: (rest ++ [n - 1]) := by
    rw [hbase]
    rfl
  have hwl_head : (sampleBase n t ++ [n - 1]).head? = some 0 := by
    rw [hwl_cons]
    rfl
  have hwl_last : (sampleBase n t ++ [n - 1]).getLast? = some (n - 1) :=
    List.getLast?_concat _
  have hwl_mem : (n - 1) ∈ sampleBase n t ++ [n - 1] :=
    List.mem_append.mpr (Or.inr (List.mem_singleton.mpr rfl))
  have hwl_len : (sampleBase n t ++ [n - 1]).length ≤ t := by
    rw [List.length_append, List.length_singleton]
    have := sampleBase_length_le n t ht
    omega
  by_cases hlen : (sampleBase n t ++ [n - 1]).length < t
  · rw [if_pos hlen, fillRemainingCandles_eq]
    have hgap : 1 ≤ max 1 (n / ((t - (sampleBase n t ++ [n - 1]).length) * 2)) :=
      le_max_left 1 _
    obtain ⟨hfh, hfl, hflen⟩ := fillFold_endpoints t n
      (jsLoopIdx n (max 1 (n / ((t - (sampleBase n t ++ [n - 1]).length) * 2))))
      (sampleBase n t ++ [n - 1])
      (fun i hi => jsLoopIdx_lt_pred hn2 hi)
      (fun i hi => jsLoopIdx_one_le hgap hi)
      hwl_head hwl_last hwl_mem hwl_len
    rw [List.take_of_length_le hflen]
    refine ⟨?_, hfh, hfl⟩
    intro habs
    rw [habs] at hfh
    cases hfh
  · rw [if_neg hlen, List.take_of_length_le hwl_len]
    refine ⟨?_, hwl_head, hwl_last⟩
    intro habs
    rw [habs] at hwl_head
    cases hwl_head

-- From sorted index lists to sublists of the candle list.

lemma filterMap_get?_shift {α : Type} (a : α) (l : List α) :
    ∀ (is : List ℕ), (∀ j ∈ is, 1 ≤ j) →
      is.filterMap (a :: l).get? = (is.map (· - 1)).filterMap l.get? := by
  intro is
  induction is with
  | nil => intro _; rfl
  | cons j rest ih =>
    intro h
    have hj : 1 ≤ j := h j (List.mem_cons_self j rest)
    obtain ⟨j', rfl⟩ : ∃ j', j = j' + 1 := ⟨j - 1, by omega⟩
    rw [List.map_cons, List.filterMap_cons, List.filterMap_cons]
    have hsucc : (a :: l).get? (j' + 1) = l.get? j' := rfl
    have hpred : j' + 1 - 1 = j' := rfl
    rw [hsucc, hpred]
    have ih' := ih fun x hx => h x (List.mem_cons_of_mem _ hx)
    cases hg : l.get? j' with
    | none => simpa [hg] using ih'
    | some v => simpa [hg] using ih'

lemma filterMap_get?_sublist {α : Type} (l : List α) :
    ∀ (is : List ℕ), is.Pairwise (· < ·) →
      List.Sublist (is.filterMap l.get?) l := by
  induction l with
  | nil =>
    intro is _
    have hnil : is.filterMap ([] : List α).get? = [] := by
      rw [List.filterMap_eq_nil_iff]
      intro i _
      cases i <;> rfl
    rw [hnil]
  | cons a l' ih =>
    intro is hs
    cases is with
    | nil => exact List.nil_sublist _
    | cons i rest =>
      have hrest_s : rest.Pairwise (· < ·) := (List.pairwise_cons.mp hs).2
      have hrest_gt : ∀ j ∈ rest, i < j := (List.pairwise_cons.mp hs).1
      by_cases hi : i = 0
      · subst hi
        rw [List.filterMap_cons]
        have hg : (a :: l').get? 0 = some a := rfl
        rw [hg]
        have h1 : ∀ j ∈ rest, 1 ≤ j := fun j hj => hrest_gt j hj
        rw [filterMap_get?_shift a l' rest h1]
        refine List.Sublist.cons₂ a (ih _ ?_)
        rw [List.pairwise_map]
        refine List.Pairwise.imp_of_mem ?_ hrest_s
        intro x y hx _ hxy
        have := h1 x hx
        omega
      · have h1 : ∀ j ∈ i :: rest, 1 ≤ j := by
          intro j hj
          rcases List.mem_cons.mp hj with hj | hj
          · omega
          · have := hrest_gt j hj
            omega
        rw [filterMap_get?_shift a l' (i :: rest) h1]
        refine List.Sublist.cons a (ih _ ?_)
        rw [List.pairwise_map]
        refine List.Pairwise.imp_of_mem ?_ hs
        intro x y hx _ hxy
        have := h1 x hx
        omega

lemma filterMap_get?_head {α : Type} (l : List α) (is : List ℕ)
    (h : is.head? = some 0) (hl : l ≠ []) :
    (is.filterMap l.get?).head? = l.head? := by
  cases is with
  | nil => cases h
  | cons i rest =>
    have hi : i = 0 := by
      have : some i = some 0 := h
      injection this
    subst hi
    cases l with
    | nil => exact absurd rfl hl
    | cons a l' =>
      rw [List.filterMap_cons]
      have hg : (a :: l').get? 0 = some a := rfl
      rw [hg]
      rfl

lemma filterMap_get?_getLast {α : Type} (l : List α) :
    ∀ (is : List ℕ) (j : ℕ), (∀ i ∈ is, i < l.length) → is.getLast? = some j →
      (is.filterMap l.get?).getLast? = l.get? j := by
  intro is
  induction is with
  | nil => intro j _ h; cases h
  | cons i rest ih =>
    intro j hbnd hlast
    cases rest with
    | nil =>
      have hj : j = i := by
        have : some i = some j := hlast
        injection this with h
        exact h.symm
      subst hj
      have hib : j < l.length := hbnd j (List.mem_cons_self j [])
      obtain ⟨v, hv⟩ : ∃ v, l.get? j = some v :=
        ⟨l.get ⟨j, hib⟩, List.get?_eq_get hib⟩
      rw [List.filterMap_cons, hv]
      simp [hv]
    | cons i2 rest2 =>
      have hlast' : (i2 :: rest2).getLast? = some j := by
        rw [← List.getLast?_cons_cons (a := i)]
        exact hlast
      have hib : i < l.length := hbnd i (List.mem_cons_self i (i2 :: rest2))
      obtain ⟨v, hv⟩ : ∃ v, l.get? i = some v :=
        ⟨l.get ⟨i, hib⟩, List.get?_eq_get hib⟩
      have hib2 : i2 < l.length := hbnd i2 (List.mem_cons_of_mem i (List.mem_cons_self i2 rest2))
      obtain ⟨v2, hv2⟩ : ∃ v2, l.get? i2 = some v2 :=
        ⟨l.get ⟨i2, hib2⟩, List.get?_eq_get hib2⟩
      have htail_ne : (i2 :: rest2).filterMap l.get? ≠ [] := by
        rw [List.filterMap_cons, hv2]
        exact List.cons_ne_nil v2 _
      rw [List.filterMap_cons, hv, getLast?_cons_ne_nil v htail_ne]
      exact ih j (fun x hx => hbnd x (List.mem_cons_of_mem i hx)) hlast'

/-- C3: for every candle list and every target count, the sampled indices
are strictly increasing and in range, so the sampled output (including any
gap-fill insertions) is an order-preserving, duplicate-free subsequence of
the input. -/
theorem sampleCandles_subsequence (candles : List Candle) (targetCount : ℕ) :
    (sampleIdx candles.length targetCount).Pairwise (· < ·) ∧
    (∀ i ∈ sampleIdx candles.length targetCount, i < candles.length) ∧
    List.Sublist (sampleCandles candles targetCount) candles := by
  obtain ⟨hp, hb⟩ := sampleIdx_pairwise_lt candles.length targetCount
  exact ⟨hp, hb, filterMap_get?_sublist candles _ hp⟩

/-- C2 (amended): for a target count of at least 2 and an input strictly
longer than the target, the sampled output is non-empty and keeps the
input's first and last candles.  (For target counts 0 and 1 the source
drops the last candle in the final `slice`, see the counterexample.) -/
theorem sampleCandles_preserves_endpoints (candles : List Candle) (targetCount : ℕ)
    (ht : 2 ≤ targetCount) (hlen : targetCount < candles.length) :
    sampleCandles candles targetCount ≠ [] ∧
    (sampleCandles candles targetCount).head? = candles.head? ∧
    (sampleCandles candles targetCount).getLast? = candles.getLast? := by
  obtain ⟨hne, hh, hl⟩ := sampleIdx_endpoints candles.length targetCount ht hlen
  have hbnd := (sampleIdx_pairwise_lt candles.length targetCount).2
  have hcne : candles ≠ [] := by
    intro h
    rw [h] at hlen
    simp at hlen
  have hhead : (sampleCandles candles targetCount).head? = candles.head? :=
    filterMap_get?_head candles _ hh hcne
  refine ⟨?_, hhead, ?_⟩
  · intro habs
    rw [habs] at hhead
    cases candles with
    | nil => exact hcne rfl
    | cons a l' => cases hhead
  · rw [sampleCandles, filterMap_get?_getLast candles _ (candles.length - 1) hbnd hl,
      List.get?_eq_getElem?]
    exact (List.getLast?_eq_getElem? candles).symm

/-- Witness for C2 (amended): five candles sampled to a target of 3. -/
theorem sampleCandles_preserves_endpoints_witness :
    ((2 : ℕ) ≤ 3 ∧ 3 < kcs5.length) ∧
    (sampleCandles kcs5 3 ≠ [] ∧
      (sampleCandles kcs5 3).head? = kcs5.head? ∧
      (sampleCandles kcs5 3).getLast? = kcs5.getLast?) :=
  ⟨⟨by decide, by decide⟩, sampleCandles_preserves_endpoints kcs5 3 (by decide) (by decide)⟩

/-- Counterexample for C2 as stated: with target count 1 on a two-candle
list (which is strictly longer than the target), the final
`slice(0, 1)` cuts the appended last candle off, so the output's last
element is the input's *first* candle. -/
theorem sampleCandles_t_one_counterexample :
    (1 : ℕ) < ([kc 1 2 0 1 none, kc 2 3 1 2 none] : List Candle).length ∧
    (sampleCandles [kc 1 2 0 1 none, kc 2 3 1 2 none] 1).getLast? ≠
      ([kc 1 2 0 1 none, kc 2 3 1 2 none] : List Candle).getLast? :=
  ⟨by decide, by decide⟩
